import Mathlib

/-!
IM-go: the session registry and message-routing core.

A shallow embedding of `user.go` and `server.go`.

* A Go `string` is a sequence of bytes (`GoString`); string literals of the
  source are their UTF-8 bytes (`utf8`).
* A `*User` is an address into the heap `Server.users`; `NewUser` allocates the
  address `Server.next`.
* `Server.OnlineMap` (`map[string]*User`) is an association list. Go leaves the
  iteration order of a map unspecified; the list order stands for one such
  order, and statements about an iteration are made up to permutation.
* `Server.Message` (`chan string`) is the queue of published messages that the
  fan-out loop `ListenMessager` has not received yet.
* `User.C` (`chan string`) is the queue of messages sent to the session's
  mailbox that `ListenMessage` has not forwarded yet, `User.closedC` records
  `close(user.C)`.
* `User.conn` records the arguments of the `conn.Write` calls made on the
  session's connection, oldest first (the source ignores the result of
  `Write`), `User.connClosed` records `conn.Close()`.
* Every goroutine body is one atomic step (`step`); a run-time panic of the Go
  program is the result `Except.error`.
-/

namespace IMGo

/-- Go `string`: a sequence of bytes. -/
abbrev GoString := List UInt8

/-- The bytes of a string literal of the source (Go source text is UTF-8). -/
def utf8 (s : String) : GoString := s.data.flatMap String.utf8EncodeChar

/-- The byte `|`, the separator of the command syntax. -/
def bar : UInt8 := 124

/-- Go `strings.HasPrefix(s, p)`: `len(s) >= len(p) && s[:len(p)] == p`. -/
def HasPrefix (s p : GoString) : Bool :=
  decide (p.length ≤ s.length) && (s.take p.length == p)

/-- Go `strings.Split(s, sep)` for a separator of one byte (the source only
splits on `"|"`): the pieces of `s` between the occurrences of `sep`. -/
def Split (s : GoString) (sep : UInt8) : List GoString :=
  match s with
  | [] => [[]]
  | c :: cs =>
    if c = sep then [] :: Split cs sep
    else
      match Split cs sep with
      | [] => [[c]]
      | p :: ps => (c :: p) :: ps

/-- Run-time panics of the Go program that the modelled code can raise. -/
inductive Panic where
  | indexOutOfRange
  | sendOnClosedChannel
  | closeOfClosedChannel
  deriving DecidableEq, Repr

/-- The struct `User` of `user.go`. -/
structure User where
  Name : GoString
  Addr : GoString
  C : List GoString
  closedC : Bool
  conn : List GoString
  connClosed : Bool
  deriving DecidableEq, Repr

/-- The type `map[string]*User` of `OnlineMap`. -/
abbrev UserMap := List (GoString × Nat)

/-- Go `v, ok := m[k]`: `some v` when `ok`. -/
def mapGet : UserMap → GoString → Option Nat
  | [], _ => none
  | (k1, v) :: m, k => if k1 = k then some v else mapGet m k

/-- Go `delete(m, k)`. -/
def mapDelete (m : UserMap) (k : GoString) : UserMap :=
  m.filter (fun e => decide (e.1 ≠ k))

/-- Go `m[k] = v`. -/
def mapSet (m : UserMap) (k : GoString) (v : Nat) : UserMap :=
  (k, v) :: mapDelete m k

/-- The struct `Server` of `server.go` together with the heap of `User`
objects (the fields `Ip`, `Port` and `mapLock` play no part in routing). -/
structure Server where
  OnlineMap : UserMap
  Message : List GoString
  users : Nat → User
  next : Nat

/-- `NewServer`: an empty `OnlineMap` and an empty `Message` channel. -/
def NewServer : Server :=
  { OnlineMap := [], Message := [],
    users := fun _ => { Name := [], Addr := [], C := [], closedC := false,
                        conn := [], connClosed := false },
    next := 0 }

/-- `NewUser(conn, server)`: a fresh `User` whose `Name` and `Addr` are the
remote address of the connection; returns the new state and the pointer. -/
def NewUser (s : Server) (userAddr : GoString) : Server × Nat :=
  ({ s with
      users := Function.update s.users s.next
        { Name := userAddr, Addr := userAddr, C := [], closedC := false,
          conn := [], connClosed := false },
      next := s.next + 1 },
   s.next)

/-- `(u *User) SendMsg(msgType, msg)`: `u.conn.Write("[" + msgType + "]" + msg)`. -/
def SendMsg (s : Server) (u : Nat) (msgType msg : GoString) : Server :=
  { s with
    users := Function.update s.users u
      { s.users u with conn := (s.users u).conn ++ [utf8 "[" ++ msgType ++ utf8 "]" ++ msg] } }

/-- `(ser *Server) BroadCast(user, msgType, msg)`: sends
`"[" + msgType + "]" + user.Name + ":" + msg` to the channel `Message`. -/
def BroadCast (s : Server) (u : Nat) (msgType msg : GoString) : Server :=
  { s with
    Message := s.Message ++ [utf8 "[" ++ msgType ++ utf8 "]" ++ (s.users u).Name ++ utf8 ":" ++ msg] }

/-- `(u *User) Online()`: `OnlineMap[u.Name] = u`, then the broadcast of `已上线`. -/
def Online (s : Server) (u : Nat) : Server :=
  BroadCast { s with OnlineMap := mapSet s.OnlineMap (s.users u).Name u } u
    (utf8 "系统") (utf8 "已上线")

/-- `(u *User) SendHelp()`. -/
def SendHelp (s : Server) (u : Nat) : Server :=
  SendMsg s u (utf8 "系统")
    (utf8 "发送“rename|\x7byour name\x7d”可以修改昵称,例如“rename|张三”\n[系统]使用“who”查看当前在线人员\n[系统]使用“to|张三|你好呀”可发起私聊\n")

/-- `(u *User) Offline()`: `delete(OnlineMap, u.Name)`, then the broadcast of `已下线`. -/
def Offline (s : Server) (u : Nat) : Server :=
  BroadCast { s with OnlineMap := mapDelete s.OnlineMap (s.users u).Name } u
    (utf8 "系统") (utf8 "已下线")

/-- `(u *User) DoMessage(msg)`: the `switch` of the command router, case by
case in the order of the source. -/
def DoMessage (s : Server) (u : Nat) (msg : GoString) : Except Panic Server :=
  if msg = utf8 "who" then
    .ok (s.OnlineMap.foldl
      (fun acc e => SendMsg acc u (utf8 "系统") ((acc.users e.2).Name ++ utf8 ":" ++ utf8 "在线ing\n"))
      s)
  else if HasPrefix msg (utf8 "rename|") = true ∧ msg.length > 7 then
    match (Split msg bar)[1]? with
    | none => .error .indexOutOfRange
    | some newName =>
      if (mapGet s.OnlineMap newName).isSome then
        .ok (SendMsg s u (utf8 "系统") (utf8 "当前用户名已被占用\n"))
      else
        let s1 : Server :=
          { s with
            OnlineMap := mapSet (mapDelete s.OnlineMap (s.users u).Name) newName u,
            users := Function.update s.users u { s.users u with Name := newName } }
        .ok (SendMsg s1 u (utf8 "系统")
          (utf8 "您已修改用户名为：" ++ (s1.users u).Name ++ utf8 "\n"))
  else if msg.length > 4 ∧ msg.take 3 = utf8 "to|" then
    match (Split msg bar)[1]? with
    | none => .error .indexOutOfRange
    | some remoteName =>
      if remoteName = [] then
        .ok (SendMsg s u (utf8 "系统")
          (utf8 "消息格式不正确，请使用\"to|张三|你好啊\"格式\n"))
      else
        match mapGet s.OnlineMap remoteName with
        | none => .ok (SendMsg s u (utf8 "系统") (utf8 "该用户名不存在/不在线\n"))
        | some remoteUser =>
          match (Split msg bar)[2]? with
          | none => .error .indexOutOfRange
          | some content =>
            let s1 : Server :=
              if content = [] then SendMsg s u (utf8 "系统") (utf8 "无消息内容，请重发\n")
              else s
            .ok (SendMsg s1 remoteUser (utf8 "私聊")
              ((s1.users u).Name ++ utf8 "对您说：" ++ content))
  else if msg = [] then
    .ok (SendMsg s u (utf8 "系统") (utf8 "无消息内容，请重发\n"))
  else
    .ok (BroadCast s u (utf8 "大厅") msg)

/-- The loop `for _, cli := range ser.OnlineMap { cli.C <- msg }` of
`ListenMessager`; a send on a closed channel panics. -/
def fanOut (msg : GoString) : UserMap → (Nat → User) → Except Panic (Nat → User)
  | [], us => .ok us
  | (_, cli) :: rest, us =>
    if (us cli).closedC then .error .sendOnClosedChannel
    else fanOut msg rest (Function.update us cli { us cli with C := (us cli).C ++ [msg] })

/-- One iteration of `(ser *Server) ListenMessager()`: receive one message from
`Message` and send it to the mailbox of every user of `OnlineMap` (no step
while `Message` is empty). -/
def ListenMessager (s : Server) : Except Panic Server :=
  match s.Message with
  | [] => .ok s
  | msg :: pending =>
    match fanOut msg s.OnlineMap s.users with
    | .error e => .error e
    | .ok us => .ok { s with Message := pending, users := us }

/-- One iteration of `(u *User) ListenMessage()`: receive from `u.C` and write
the message and a newline to the connection; a receive from a closed, empty
channel yields the empty string. -/
def ListenMessage (s : Server) (u : Nat) : Server :=
  match (s.users u).C with
  | msg :: pending =>
    { s with
      users := Function.update s.users u
        { s.users u with C := pending, conn := (s.users u).conn ++ [msg ++ utf8 "\n"] } }
  | [] =>
    if (s.users u).closedC then
      { s with
        users := Function.update s.users u
          { s.users u with conn := (s.users u).conn ++ [utf8 "\n"] } }
    else s

/-- The start of `(ser *Server) Handler(conn)`: `NewUser`, `Online`, `SendHelp`. -/
def HandlerConnect (s : Server) (userAddr : GoString) : Server :=
  let r := NewUser s userAddr
  SendHelp (Online r.1 r.2) r.2

/-- The `time.After` case of the `select` of `Handler`: the notice, then
`close(user.C)` and `conn.Close()`. -/
def HandlerTimeout (s : Server) (u : Nat) : Except Panic Server :=
  let s1 := SendMsg s u (utf8 "系统") (utf8 "您潜水太久已超时，请重新连接进入")
  if (s1.users u).closedC then .error .closeOfClosedChannel
  else
    .ok { s1 with
          users := Function.update s1.users u
            { s1.users u with closedC := true, connClosed := true } }

/-- The steps of the server, one per goroutine body. A session is named by the
pointer that `NewUser` returned for it. -/
inductive Action where
  | connect (userAddr : GoString)
  | line (u : Nat) (msg : GoString)
  | disconnect (u : Nat)
  | timeout (u : Nat)
  | fanOutStep
  | drain (u : Nat)

/-- One step of the server; a pointer that `NewUser` has not returned yet names
no session, and a step of it does nothing. The `Handler` goroutine of a session
ends with its timeout (`runtime.Goexit`), so a session times out at most once. -/
def step (s : Server) : Action → Except Panic Server
  | .connect userAddr => .ok (HandlerConnect s userAddr)
  | .line u msg => if u < s.next then DoMessage s u msg else .ok s
  | .disconnect u => if u < s.next then .ok (Offline s u) else .ok s
  | .timeout u =>
    if u < s.next ∧ (s.users u).closedC = false then HandlerTimeout s u else .ok s
  | .fanOutStep => ListenMessager s
  | .drain u => if u < s.next then .ok (ListenMessage s u) else .ok s

/-- A sequence of steps; a panic ends the run. -/
def run (s : Server) : List Action → Except Panic Server
  | [] => .ok s
  | a :: rest =>
    match step s a with
    | .error e => .error e
    | .ok s1 => run s1 rest

/-! ## Invariants and concrete states -/

/-- Every entry of `OnlineMap` is keyed by the current `Name` of its session,
the keys are distinct and every stored pointer was returned by `NewUser`. -/
def SlotInv (s : Server) : Prop :=
  (s.OnlineMap.map Prod.fst).Nodup ∧
  ∀ e ∈ s.OnlineMap, (s.users e.2).Name = e.1 ∧ e.2 < s.next

/-- The step from `s` to `s1` changes neither `OnlineMap`, nor the allocation
pointer, nor the `Name` of any session. -/
def Frame (s s1 : Server) : Prop :=
  s1.OnlineMap = s.OnlineMap ∧ s1.next = s.next ∧
  ∀ q, (s1.users q).Name = (s.users q).Name

/-- Two sessions, connected from the addresses `alice` (pointer 0) and `bob`
(pointer 1). -/
def twoUsers : Server :=
  HandlerConnect (HandlerConnect NewServer (utf8 "alice")) (utf8 "bob")

/-- A run with two connections from the same address, three renames, a
disconnect and a fan-out. -/
def collidingRun : List Action :=
  [.connect (utf8 "alice"), .connect (utf8 "alice"), .line 0 (utf8 "rename|carol"),
   .line 1 (utf8 "rename|dave"), .line 0 (utf8 "rename|alice"), .disconnect 1, .fanOutStep]

/-! ## Byte strings of the command syntax -/

theorem utf8_who : utf8 "who" = [119, 104, 111] := by decide

theorem utf8_rename : utf8 "rename|" = [114, 101, 110, 97, 109, 101, bar] := by decide

theorem utf8_to : utf8 "to|" = [116, 111, bar] := by decide

theorem utf8_bar : utf8 "|" = [bar] := by decide

/-- `strings.Split` never returns an empty slice. -/
theorem Split_ne_nil (s : GoString) (sep : UInt8) : Split s sep ≠ [] := by
  cases s with
  | nil => simp [Split]
  | cons c cs =>
    unfold Split
    split
    · simp
    · split <;> simp

/-- A string without the separator is split into itself. -/
theorem Split_no_sep (a : GoString) (sep : UInt8) (h : sep ∉ a) : Split a sep = [a] := by
  induction a with
  | nil => simp [Split]
  | cons c cs ih =>
    have hc : c ≠ sep := fun e => h (by simp [e])
    have hcs : sep ∉ cs := fun e => h (by simp [e])
    simp [Split, hc, ih hcs]

/-- The first piece of a split ends at the first separator. -/
theorem Split_append (a rest : GoString) (sep : UInt8) (h : sep ∉ a) :
    Split (a ++ sep :: rest) sep = a :: Split rest sep := by
  induction a with
  | nil => simp [Split]
  | cons c cs ih =>
    have hc : c ≠ sep := fun e => h (by simp [e])
    have hcs : sep ∉ cs := fun e => h (by simp [e])
    simp [Split, hc, ih hcs]

theorem Split_rename (n : GoString) :
    Split (utf8 "rename|" ++ n) bar = [114, 101, 110, 97, 109, 101] :: Split n bar := by
  have := Split_append [114, 101, 110, 97, 109, 101] n bar (by decide)
  simpa [utf8_rename] using this

theorem Split_to (rest : GoString) :
    Split (utf8 "to|" ++ rest) bar = [116, 111] :: Split rest bar := by
  have := Split_append [116, 111] rest bar (by decide)
  simpa [utf8_to] using this

/-- The first piece of a split is the part before the first separator. -/
theorem Split_head (b : GoString) (sep : UInt8) :
    ∃ ps, Split b sep = b.takeWhile (fun c => c != sep) :: ps := by
  induction b with
  | nil => exact ⟨[], by simp [Split]⟩
  | cons c cs ih =>
    obtain ⟨ps, hps⟩ := ih
    by_cases hc : c = sep
    · exact ⟨Split cs sep, by simp [Split, hc]⟩
    · exact ⟨ps, by simp [Split, hc, hps]⟩

theorem HasPrefix_append (p x : GoString) : HasPrefix (p ++ x) p = true := by
  simp [HasPrefix]

theorem HasPrefix_iff (s p : GoString) :
    HasPrefix s p = true ↔ p.length ≤ s.length ∧ s.take p.length = p := by
  simp [HasPrefix]

/-! ## The map operations -/

theorem mapGet_mapDelete_same (m : UserMap) (k : GoString) : mapGet (mapDelete m k) k = none := by
  induction m with
  | nil => simp [mapDelete, mapGet]
  | cons e m ih =>
    obtain ⟨k1, v⟩ := e
    by_cases h : k1 = k
    · simpa [mapDelete, h] using ih
    · simpa [mapDelete, h, mapGet] using ih

theorem mapDelete_cons (e : GoString × Nat) (m : UserMap) (k : GoString) :
    mapDelete (e :: m) k = if e.1 = k then mapDelete m k else e :: mapDelete m k := by
  by_cases h : e.1 = k <;> simp [mapDelete, h]

theorem mapGet_mapDelete_ne (m : UserMap) (k k2 : GoString) (hk : k2 ≠ k) :
    mapGet (mapDelete m k) k2 = mapGet m k2 := by
  induction m with
  | nil => simp [mapDelete, mapGet]
  | cons e m ih =>
    obtain ⟨k1, v⟩ := e
    rw [mapDelete_cons]
    by_cases h : k1 = k
    · subst h
      simp [mapGet, Ne.symm hk, ih]
    · simp [h, mapGet, ih]

theorem mapGet_mapSet_same (m : UserMap) (k : GoString) (v : Nat) :
    mapGet (mapSet m k v) k = some v := by
  simp [mapSet, mapGet]

theorem mapGet_mapSet_ne (m : UserMap) (k k2 : GoString) (v : Nat) (hk : k2 ≠ k) :
    mapGet (mapSet m k v) k2 = mapGet m k2 := by
  simp [mapSet, mapGet, Ne.symm hk, mapGet_mapDelete_ne m k k2 hk]

theorem mem_mapDelete {m : UserMap} {k : GoString} {e : GoString × Nat}
    (h : e ∈ mapDelete m k) : e ∈ m ∧ e.1 ≠ k := by
  simpa [mapDelete] using h

theorem keys_mapDelete_nodup {m : UserMap} (k : GoString)
    (h : (m.map Prod.fst).Nodup) : ((mapDelete m k).map Prod.fst).Nodup :=
  (List.Sublist.map Prod.fst (List.filter_sublist m)).nodup h

theorem keys_mapSet_nodup {m : UserMap} (k : GoString) (v : Nat)
    (h : (m.map Prod.fst).Nodup) : ((mapSet m k v).map Prod.fst).Nodup := by
  simp only [mapSet, List.map_cons, List.nodup_cons]
  refine ⟨?_, keys_mapDelete_nodup k h⟩
  intro hk
  obtain ⟨e, he, hek⟩ := List.mem_map.mp hk
  exact (mem_mapDelete he).2 hek

/-! ## Dispatch of the command router -/

theorem SendMsg_users_Name (s : Server) (u : Nat) (msgType msg : GoString) (q : Nat) :
    ((SendMsg s u msgType msg).users q).Name = (s.users q).Name := by
  by_cases h : q = u
  · subst h; simp [SendMsg]
  · simp [SendMsg, h]

/-- The `who` loop only appends to the requester's connection. -/
theorem who_loop (u : Nat) (m : UserMap) (s : Server) :
    m.foldl
      (fun acc e => SendMsg acc u (utf8 "系统") ((acc.users e.2).Name ++ utf8 ":" ++ utf8 "在线ing\n"))
      s =
    { s with
      users := Function.update s.users u
        { s.users u with
          conn := (s.users u).conn ++
            m.map (fun e => utf8 "[系统]" ++ (s.users e.2).Name ++ utf8 ":在线ing\n") } } := by
  induction m generalizing s with
  | nil => simp
  | cons e m ih =>
    rw [List.foldl_cons, ih]
    have e1 : utf8 "[" ++ utf8 "系统" ++ utf8 "]" = utf8 "[系统]" := by decide
    have e2 : utf8 ":" ++ utf8 "在线ing\n" = utf8 ":在线ing\n" := by decide
    simp only [SendMsg_users_Name]
    simp only [SendMsg, Function.update_same, Function.update_idem, List.map_cons, e1,
      List.append_assoc, e2, List.singleton_append]

/-- The case `msg == "who"` of `DoMessage`. -/
theorem DoMessage_who (s : Server) (u : Nat) :
    DoMessage s u (utf8 "who") =
      .ok { s with
        users := Function.update s.users u
          { s.users u with
            conn := (s.users u).conn ++
              s.OnlineMap.map (fun e => utf8 "[系统]" ++ (s.users e.2).Name ++ utf8 ":在线ing\n") } } := by
  simp only [DoMessage, if_true, who_loop]

/-- The `rename|` case of `DoMessage` for a new name without `|`. -/
theorem DoMessage_rename (s : Server) (u : Nat) (n : GoString) (hn : n ≠ []) (hbar : bar ∉ n) :
    DoMessage s u (utf8 "rename|" ++ n) =
      if (mapGet s.OnlineMap n).isSome then
        .ok (SendMsg s u (utf8 "系统") (utf8 "当前用户名已被占用\n"))
      else
        .ok (SendMsg
          { s with
            OnlineMap := mapSet (mapDelete s.OnlineMap (s.users u).Name) n u,
            users := Function.update s.users u { s.users u with Name := n } }
          u (utf8 "系统") (utf8 "您已修改用户名为：" ++ n ++ utf8 "\n")) := by
  have h1 : utf8 "rename|" ++ n ≠ utf8 "who" := by
    simp [utf8_rename, utf8_who]
  have h2 : HasPrefix (utf8 "rename|" ++ n) (utf8 "rename|") = true ∧
      (utf8 "rename|" ++ n).length > 7 := by
    refine ⟨HasPrefix_append _ _, ?_⟩
    have : 0 < n.length := List.length_pos.mpr hn
    simp [utf8_rename]; omega
  unfold DoMessage
  rw [if_neg h1, if_pos h2, Split_rename, Split_no_sep n bar hbar]
  simp

/-- The `to|` case of `DoMessage` for a registered target and a line with a
second `|`. -/
theorem DoMessage_to (s : Server) (u p : Nat) (t b : GoString) (ht : t ≠ []) (hbar : bar ∉ t)
    (hp : mapGet s.OnlineMap t = some p) :
    DoMessage s u (utf8 "to|" ++ t ++ utf8 "|" ++ b) =
      .ok (SendMsg
        (if b.takeWhile (fun c => c != bar) = [] then
            SendMsg s u (utf8 "系统") (utf8 "无消息内容，请重发\n")
          else s)
        p (utf8 "私聊")
        ((s.users u).Name ++ utf8 "对您说：" ++ b.takeWhile (fun c => c != bar))) := by
  have e0 : utf8 "to|" ++ t ++ utf8 "|" ++ b = utf8 "to|" ++ (t ++ bar :: b) := by
    simp [utf8_bar]
  have h1 : utf8 "to|" ++ (t ++ bar :: b) ≠ utf8 "who" := by
    simp [utf8_to, utf8_who]
  have h2 : ¬ (HasPrefix (utf8 "to|" ++ (t ++ bar :: b)) (utf8 "rename|") = true ∧
      (utf8 "to|" ++ (t ++ bar :: b)).length > 7) := by
    simp [utf8_to, utf8_rename, HasPrefix]
  have h3 : (utf8 "to|" ++ (t ++ bar :: b)).length > 4 ∧
      (utf8 "to|" ++ (t ++ bar :: b)).take 3 = utf8 "to|" := by
    have : 0 < t.length := List.length_pos.mpr ht
    refine ⟨by simp [utf8_to]; omega, by simp [utf8_to]⟩
  obtain ⟨ps, hps⟩ := Split_head b bar
  rw [e0]
  unfold DoMessage
  rw [if_neg h1, if_neg h2, if_pos h3, Split_to, Split_append t b bar hbar, hps]
  simp only [List.getElem?_cons_succ, List.getElem?_cons_zero, ht, if_false, hp]
  split <;> simp [SendMsg_users_Name]

/-- A `to|` line with a registered target and no second `|` indexes the split
line out of range. -/
theorem DoMessage_to_no_body (s : Server) (u p : Nat) (t : GoString)
    (ht : 2 ≤ t.length) (hbar : bar ∉ t) (hp : mapGet s.OnlineMap t = some p) :
    DoMessage s u (utf8 "to|" ++ t) = .error .indexOutOfRange := by
  have hne : t ≠ [] := by
    intro h; rw [h] at ht; simp at ht
  have h1 : utf8 "to|" ++ t ≠ utf8 "who" := by
    simp [utf8_to, utf8_who]
  have h2 : ¬ (HasPrefix (utf8 "to|" ++ t) (utf8 "rename|") = true ∧
      (utf8 "to|" ++ t).length > 7) := by
    simp [utf8_to, utf8_rename, HasPrefix]
  have h3 : (utf8 "to|" ++ t).length > 4 ∧ (utf8 "to|" ++ t).take 3 = utf8 "to|" := by
    refine ⟨by simp [utf8_to]; omega, by simp [utf8_to]⟩
  unfold DoMessage
  rw [if_neg h1, if_neg h2, if_pos h3, Split_to, Split_no_sep t bar hbar]
  simp [hne, hp]

theorem Split_second_of_prefix (msg p : GoString) (hp : bar ∉ p)
    (h : HasPrefix msg (p ++ [bar]) = true) : ∃ x, (Split msg bar)[1]? = some x := by
  rw [HasPrefix_iff] at h
  have e : msg = p ++ bar :: msg.drop (p ++ [bar]).length := by
    conv_lhs => rw [← List.take_append_drop (p ++ [bar]).length msg, h.2]
    simp
  rw [e, Split_append p _ bar hp]
  cases hs : Split (List.drop (p ++ [bar]).length msg) bar with
  | nil => exact absurd hs (Split_ne_nil _ _)
  | cons x xs => exact ⟨x, by simp⟩

/-- The only panic of `DoMessage` is the index `[2]` of a `to|` line whose
target is registered. -/
theorem DoMessage_error (s : Server) (u : Nat) (msg : GoString) (e : Panic)
    (h : DoMessage s u msg = .error e) :
    e = .indexOutOfRange ∧ msg.length > 4 ∧ msg.take 3 = utf8 "to|" ∧
      (Split msg bar)[2]? = none ∧
      ∃ t p, (Split msg bar)[1]? = some t ∧ mapGet s.OnlineMap t = some p := by
  unfold DoMessage at h
  split at h
  · cases h
  · split at h
    · rename_i hr
      obtain ⟨x, hx⟩ := Split_second_of_prefix msg [114, 101, 110, 97, 109, 101] (by decide)
        (by simpa [utf8_rename] using hr.1)
      rw [hx] at h
      simp only at h
      split at h <;> cases h
    · split at h
      · rename_i ht
        have hpre : HasPrefix msg ([116, 111] ++ [bar]) = true := by
          rw [HasPrefix_iff]
          refine ⟨by simp; omega, ?_⟩
          simpa [utf8_to] using ht.2
        obtain ⟨x, hx⟩ := Split_second_of_prefix msg [116, 111] (by decide) hpre
        rw [hx] at h
        simp only at h
        split at h
        · cases h
        · split at h
          · cases h
          · rename_i p hp
            split at h
            · rename_i h2
              cases h
              exact ⟨rfl, ht.1, ht.2, h2, x, p, hx, hp⟩
            · cases h
      · split at h <;> cases h

/-! ## Preservation of the slot invariant -/

theorem Frame.refl (s : Server) : Frame s s := ⟨rfl, rfl, fun _ => rfl⟩

theorem Frame.trans {a b c : Server} (h1 : Frame a b) (h2 : Frame b c) : Frame a c :=
  ⟨h2.1.trans h1.1, h2.2.1.trans h1.2.1, fun q => (h2.2.2 q).trans (h1.2.2 q)⟩

theorem SlotInv.frame {s s1 : Server} (h : SlotInv s) (hf : Frame s s1) : SlotInv s1 := by
  obtain ⟨hm, hn, hq⟩ := hf
  refine ⟨by rw [hm]; exact h.1, ?_⟩
  intro e he
  rw [hm] at he
  rw [hq, hn]
  exact h.2 e he

theorem Frame_SendMsg (s : Server) (u : Nat) (msgType msg : GoString) :
    Frame s (SendMsg s u msgType msg) :=
  ⟨rfl, rfl, SendMsg_users_Name s u msgType msg⟩

theorem Frame_BroadCast (s : Server) (u : Nat) (msgType msg : GoString) :
    Frame s (BroadCast s u msgType msg) :=
  ⟨rfl, rfl, fun _ => rfl⟩

theorem SlotInv_Online (s : Server) (u : Nat) (hu : u < s.next) (h : SlotInv s) :
    SlotInv (Online s u) := by
  refine ⟨keys_mapSet_nodup _ _ h.1, ?_⟩
  intro e he
  simp only [Online, BroadCast, mapSet, List.mem_cons] at he
  rcases he with he | he
  · subst he
    exact ⟨rfl, hu⟩
  · exact h.2 e (mem_mapDelete he).1

theorem SlotInv_Offline (s : Server) (u : Nat) (h : SlotInv s) : SlotInv (Offline s u) := by
  refine ⟨keys_mapDelete_nodup _ h.1, ?_⟩
  intro e he
  exact h.2 e (mem_mapDelete he).1

theorem SlotInv_HandlerConnect (s : Server) (userAddr : GoString) (h : SlotInv s) :
    SlotInv (HandlerConnect s userAddr) := by
  have h1 : SlotInv (NewUser s userAddr).1 := by
    refine ⟨h.1, ?_⟩
    intro e he
    have := h.2 e he
    have hne : e.2 ≠ s.next := by omega
    simp only [NewUser, Function.update_noteq hne]
    exact ⟨this.1, by omega⟩
  have h2 : SlotInv (Online (NewUser s userAddr).1 (NewUser s userAddr).2) :=
    SlotInv_Online _ _ (by simp [NewUser]) h1
  exact h2.frame (Frame_SendMsg _ _ _ _)

theorem SlotInv_rename (s : Server) (u : Nat) (n : GoString) (hu : u < s.next)
    (h : SlotInv s) :
    SlotInv
      { s with
        OnlineMap := mapSet (mapDelete s.OnlineMap (s.users u).Name) n u,
        users := Function.update s.users u { s.users u with Name := n } } := by
  refine ⟨keys_mapSet_nodup _ _ (keys_mapDelete_nodup _ h.1), ?_⟩
  intro e he
  simp only [mapSet, List.mem_cons] at he
  rcases he with he | he
  · subst he
    simp [hu]
  · have he1 := mem_mapDelete (mem_mapDelete he).1
    have hinv := h.2 e he1.1
    have hne : e.2 ≠ u := by
      intro heq
      rw [heq] at hinv
      exact he1.2 hinv.1.symm
    simp only [Function.update_noteq hne]
    exact hinv

/-- Every case of `DoMessage` preserves the slot invariant. -/
theorem SlotInv_DoMessage (s s1 : Server) (u : Nat) (msg : GoString) (hu : u < s.next)
    (h : SlotInv s) (hs : DoMessage s u msg = .ok s1) : SlotInv s1 := by
  unfold DoMessage at hs
  split at hs
  · rw [who_loop] at hs
    cases hs
    refine h.frame ⟨rfl, rfl, ?_⟩
    intro q
    by_cases hq : q = u
    · subst hq; simp
    · simp [hq]
  · split at hs
    · split at hs
      · cases hs
      · split at hs
        · cases hs
          exact h.frame (Frame_SendMsg _ _ _ _)
        · cases hs
          exact (SlotInv_rename s u _ hu h).frame (Frame_SendMsg _ _ _ _)
    · split at hs
      · split at hs
        · cases hs
        · split at hs
          · cases hs
            exact h.frame (Frame_SendMsg _ _ _ _)
          · split at hs
            · cases hs
              exact h.frame (Frame_SendMsg _ _ _ _)
            · split at hs
              · cases hs
              · cases hs
                refine h.frame (Frame.trans ?_ (Frame_SendMsg _ _ _ _))
                split
                · exact Frame_SendMsg _ _ _ _
                · exact Frame.refl _
      · split at hs
        · cases hs
          exact h.frame (Frame_SendMsg _ _ _ _)
        · cases hs
          exact h.frame (Frame_BroadCast _ _ _ _)

theorem fanOut_Name (msg : GoString) (m : UserMap) (us us1 : Nat → User)
    (h : fanOut msg m us = .ok us1) : ∀ q, (us1 q).Name = (us q).Name := by
  induction m generalizing us with
  | nil =>
    simp only [fanOut] at h
    cases h
    intro q; rfl
  | cons e m ih =>
    obtain ⟨k, cli⟩ := e
    simp only [fanOut] at h
    split at h
    · cases h
    · intro q
      rw [ih _ h q]
      by_cases hq : q = cli
      · subst hq; simp
      · simp [hq]

/-- Every step of the server preserves the slot invariant. -/
theorem SlotInv_step (s s1 : Server) (a : Action) (h : SlotInv s) (hs : step s a = .ok s1) :
    SlotInv s1 := by
  cases a with
  | connect userAddr =>
    simp only [step] at hs
    cases hs
    exact SlotInv_HandlerConnect s userAddr h
  | line u msg =>
    simp only [step] at hs
    split at hs
    · exact SlotInv_DoMessage s s1 u msg (by assumption) h hs
    · cases hs; exact h
  | disconnect u =>
    simp only [step] at hs
    split at hs
    · cases hs; exact SlotInv_Offline s u h
    · cases hs; exact h
  | timeout u =>
    simp only [step, HandlerTimeout] at hs
    split at hs
    · split at hs
      · cases hs
      · cases hs
        refine h.frame ⟨rfl, rfl, ?_⟩
        intro q
        by_cases hq : q = u
        · subst hq; simp [SendMsg]
        · simp [SendMsg, hq]
    · cases hs; exact h
  | fanOutStep =>
    simp only [step, ListenMessager] at hs
    split at hs
    · cases hs; exact h
    · split at hs
      · cases hs
      · cases hs
        exact h.frame ⟨rfl, rfl, fanOut_Name _ _ _ _ (by assumption)⟩
  | drain u =>
    simp only [step, ListenMessage] at hs
    split at hs
    · cases hs
      split
      · refine h.frame ⟨rfl, rfl, ?_⟩
        intro q
        by_cases hq : q = u
        · subst hq; simp
        · simp [hq]
      · split
        · refine h.frame ⟨rfl, rfl, ?_⟩
          intro q
          by_cases hq : q = u
          · subst hq; simp
          · simp [hq]
        · exact h
    · cases hs; exact h

theorem SlotInv_run (tr : List Action) (s s1 : Server) (h : SlotInv s)
    (hs : run s tr = .ok s1) : SlotInv s1 := by
  induction tr generalizing s with
  | nil =>
    simp only [run] at hs
    cases hs
    exact h
  | cons a rest ih =>
    simp only [run] at hs
    split at hs
    · cases hs
    · exact ih _ (SlotInv_step s _ a h (by assumption)) hs

theorem SlotInv_NewServer : SlotInv NewServer := by
  simp [SlotInv, NewServer]

/-! ## Fan-out -/

/-- The fan-out loop, where every mailbox of the map is open and no session
occurs twice: every session of the map gets the message once. -/
theorem fanOut_delivers (msg : GoString) (m : UserMap) (us : Nat → User)
    (hopen : ∀ e ∈ m, (us e.2).closedC = false)
    (hnodup : (m.map Prod.snd).Nodup) :
    ∃ us1, fanOut msg m us = .ok us1 ∧
      ∀ q, us1 q =
        if q ∈ m.map Prod.snd then { us q with C := (us q).C ++ [msg] } else us q := by
  induction m generalizing us with
  | nil => exact ⟨us, rfl, fun q => by simp⟩
  | cons e m ih =>
    obtain ⟨k, cli⟩ := e
    have hc : (us cli).closedC = false := hopen (k, cli) (by simp)
    simp only [List.map_cons, List.nodup_cons] at hnodup
    obtain ⟨us1, h1, h2⟩ :=
      ih (Function.update us cli { us cli with C := (us cli).C ++ [msg] })
        (by
          intro e he
          by_cases hq : e.2 = cli
          · rw [hq]; simpa using hc
          · rw [Function.update_noteq hq]; exact hopen e (by simp [he]))
        hnodup.2
    have h0 : fanOut msg ((k, cli) :: m) us = .ok us1 := by
      simp only [fanOut]
      split
      · rename_i hcl
        rw [hc] at hcl
        exact absurd hcl (by decide)
      · exact h1
    refine ⟨us1, h0, ?_⟩
    intro q
    rw [h2 q]
    by_cases hq : q = cli
    · subst hq
      simp [hnodup.1]
    · simp only [List.map_cons, List.mem_cons, hq, false_or, Function.update_noteq hq]

/-- The fan-out loop panics whenever some session of the map has a closed
mailbox, in whatever order the map is iterated. -/
theorem fanOut_closed_panics (msg : GoString) (m : UserMap) (us : Nat → User)
    (h : ∃ e ∈ m, (us e.2).closedC = true) :
    fanOut msg m us = .error .sendOnClosedChannel := by
  induction m generalizing us with
  | nil =>
    obtain ⟨e, he, _⟩ := h
    simp at he
  | cons e0 m ih =>
    obtain ⟨k, cli⟩ := e0
    simp only [fanOut]
    split
    · rfl
    · rename_i hopen
      apply ih
      obtain ⟨e, he, hc⟩ := h
      rcases List.mem_cons.mp he with he | he
      · subst he
        exact absurd hc hopen
      · refine ⟨e, he, ?_⟩
        by_cases hq : e.2 = cli
        · rw [hq] at hc
          exact absurd hc hopen
        · rw [Function.update_noteq hq]
          exact hc

/-- The fan-out of one published message, where no mailbox of a registered
session is closed and no session is registered twice: the message is appended
once to the mailbox of every session of `OnlineMap`, and no other session
changes. -/
theorem ListenMessager_delivers (s : Server) (msg : GoString) (pending : List GoString)
    (hm : s.Message = msg :: pending)
    (hopen : ∀ e ∈ s.OnlineMap, (s.users e.2).closedC = false)
    (hnodup : (s.OnlineMap.map Prod.snd).Nodup) :
    ∃ s1, ListenMessager s = .ok s1 ∧
      s1.Message = pending ∧ s1.OnlineMap = s.OnlineMap ∧
      ∀ q, s1.users q =
        if q ∈ s.OnlineMap.map Prod.snd then
          { s.users q with C := (s.users q).C ++ [msg] }
        else s.users q := by
  obtain ⟨us1, h1, h2⟩ := fanOut_delivers msg s.OnlineMap s.users hopen hnodup
  exact ⟨{ s with Message := pending, users := us1 }, by simp [ListenMessager, hm, h1], rfl, rfl, h2⟩

/-! ## The claims -/

/-- C1 (rename contract). For a session `u` registered under its current
identity and a line `rename|n` with `n` non-empty and free of `|`, `DoMessage`
returns. If `n` is a key of `OnlineMap`, then `OnlineMap`, the identity of `u`
and `Message` are unchanged, the requester is written the notice
`[系统]当前用户名已被占用` and no other session changes. Otherwise `OnlineMap`
afterwards resolves `n` to `u`, has no entry for the old identity, resolves
every other key as before, and the identity of `u` is `n`. -/
theorem rename_contract (s : Server) (u : Nat) (n : GoString)
    (hreg : mapGet s.OnlineMap (s.users u).Name = some u)
    (hn : n ≠ []) (hbar : bar ∉ n) :
    ∃ s1, DoMessage s u (utf8 "rename|" ++ n) = .ok s1 ∧
      ((mapGet s.OnlineMap n).isSome = true →
        s1.OnlineMap = s.OnlineMap ∧
        (s1.users u).Name = (s.users u).Name ∧
        s1.Message = s.Message ∧
        s1.users u =
          { s.users u with conn := (s.users u).conn ++ [utf8 "[系统]当前用户名已被占用\n"] } ∧
        ∀ q, q ≠ u → s1.users q = s.users q) ∧
      (mapGet s.OnlineMap n = none →
        mapGet s1.OnlineMap n = some u ∧
        mapGet s1.OnlineMap (s.users u).Name = none ∧
        (∀ k, k ≠ n → k ≠ (s.users u).Name → mapGet s1.OnlineMap k = mapGet s.OnlineMap k) ∧
        (s1.users u).Name = n) := by
  rw [DoMessage_rename s u n hn hbar]
  cases hfree : mapGet s.OnlineMap n with
  | some p =>
    refine ⟨_, by rw [Option.isSome_some, if_pos rfl], fun _ => ?_, fun h => by simp at h⟩
    have e1 : utf8 "[" ++ utf8 "系统" ++ utf8 "]" ++ utf8 "当前用户名已被占用\n" =
        utf8 "[系统]当前用户名已被占用\n" := by decide
    refine ⟨rfl, by simp [SendMsg], rfl, by simp only [SendMsg, Function.update_same, e1], ?_⟩
    intro q hq
    simp [SendMsg, hq]
  | none =>
    refine ⟨_, by rw [Option.isSome_none, if_neg (by simp)], fun h => by simp at h, fun _ => ?_⟩
    have hne : (s.users u).Name ≠ n := by
      intro e
      rw [e, hfree] at hreg
      exact Option.noConfusion hreg
    refine ⟨?_, ?_, ?_, ?_⟩
    · simp [SendMsg, mapGet_mapSet_same]
    · simp [SendMsg, mapGet_mapSet_ne _ _ _ _ hne, mapGet_mapDelete_same]
    · intro k hk1 hk2
      simp [SendMsg, mapGet_mapSet_ne _ _ _ _ hk1, mapGet_mapDelete_ne _ _ _ hk2]
    · simp [SendMsg]

/-- C1 at a concrete input: session 0 of `twoUsers` sends `rename|carol`. -/
theorem rename_contract_witness :
    ∃ s1, DoMessage twoUsers 0 (utf8 "rename|" ++ utf8 "carol") = .ok s1 ∧
      mapGet s1.OnlineMap (utf8 "carol") = some 0 ∧
      mapGet s1.OnlineMap (utf8 "alice") = none ∧
      mapGet s1.OnlineMap (utf8 "bob") = some 1 ∧
      (s1.users 0).Name = utf8 "carol" := by
  obtain ⟨s1, h, _, hfree⟩ :=
    rename_contract twoUsers 0 (utf8 "carol") (by decide) (by decide) (by decide)
  obtain ⟨a, b, c, d⟩ := hfree (by decide)
  have hbob := c (utf8 "bob") (by decide) (by decide)
  exact ⟨s1, h, a, b, hbob.trans (by decide), d⟩

/-- C2 (direct-message routing). For a registered, non-empty target `t` free
of `|` and a non-empty body `b` free of `|`, `DoMessage` on `to|t|b` returns,
writes exactly the one message `[私聊]r对您说：b` to the connection of the
session of `t` (`r` the identity of the requester), changes no other session,
publishes nothing on `Message` and leaves `OnlineMap` unchanged. -/
theorem direct_message_routing (s : Server) (u p : Nat) (t b : GoString)
    (ht : t ≠ []) (htbar : bar ∉ t) (hb : b ≠ []) (hbbar : bar ∉ b)
    (hp : mapGet s.OnlineMap t = some p) :
    ∃ s1, DoMessage s u (utf8 "to|" ++ t ++ utf8 "|" ++ b) = .ok s1 ∧
      s1.users p =
        { s.users p with
          conn := (s.users p).conn ++ [utf8 "[私聊]" ++ (s.users u).Name ++ utf8 "对您说：" ++ b] } ∧
      (∀ q, q ≠ p → s1.users q = s.users q) ∧
      s1.Message = s.Message ∧
      s1.OnlineMap = s.OnlineMap := by
  have hw : b.takeWhile (fun c => c != bar) = b := by
    rw [List.takeWhile_eq_self_iff]
    intro c hc
    have : c ≠ bar := fun e => hbbar (e ▸ hc)
    simpa using this
  have e1 : utf8 "[" ++ utf8 "私聊" ++ utf8 "]" = utf8 "[私聊]" := by decide
  refine ⟨_, DoMessage_to s u p t b ht htbar hp, ?_, ?_, ?_, ?_⟩
  · simp [hw, hb, SendMsg, e1]
  · intro q hq
    simp [hw, hb, SendMsg, hq]
  · simp [hw, hb, SendMsg]
  · simp [hw, hb, SendMsg]

/-- C2 at a concrete input: `alice` sends `to|bob|hello`, `bob` is written
`[私聊]alice对您说：hello`. -/
theorem direct_message_routing_witness :
    ∃ s1, DoMessage twoUsers 0 (utf8 "to|" ++ utf8 "bob" ++ utf8 "|" ++ utf8 "hello") = .ok s1 ∧
      (s1.users 1).conn = (twoUsers.users 1).conn ++ [utf8 "[私聊]alice对您说：hello"] ∧
      s1.users 0 = twoUsers.users 0 ∧
      s1.Message = twoUsers.Message ∧
      s1.OnlineMap = twoUsers.OnlineMap := by
  obtain ⟨s1, h, a, b, c, d⟩ :=
    direct_message_routing twoUsers 0 1 (utf8 "bob") (utf8 "hello")
      (by decide) (by decide) (by decide) (by decide) (by decide)
  have e : utf8 "[私聊]" ++ (twoUsers.users 0).Name ++ utf8 "对您说：" ++ utf8 "hello" =
      utf8 "[私聊]alice对您说：hello" := by decide
  refine ⟨s1, h, ?_, b 0 (by decide), c, d⟩
  rw [a, e]

/-- C3, the failing run: `alice` and `bob` connect, `alice` times out, `bob`
sends `hi`. `DoMessage` publishes `[大厅]bob:hi`, and the fan-out of that
message panics on the closed mailbox of `alice`, who is still registered. -/
theorem public_chat_fan_out_panics :
    ∃ s, run NewServer
        [.connect (utf8 "alice"), .connect (utf8 "bob"), .fanOutStep, .fanOutStep,
         .timeout 0, .line 1 (utf8 "hi")] = .ok s ∧
      s.Message = [utf8 "[大厅]bob:hi"] ∧
      mapGet s.OnlineMap (utf8 "alice") = some 0 ∧
      (s.users 0).closedC = true ∧
      ListenMessager s = .error .sendOnClosedChannel :=
  ⟨_, rfl, by decide, by decide, by decide, rfl⟩

/-- C4, the failing input: with `bob` registered the line `to|bob` makes
`DoMessage` evaluate `strings.Split(msg, "|")[2]` on a slice of two elements. -/
theorem to_without_body_panics :
    mapGet twoUsers.OnlineMap (utf8 "bob") = some 1 ∧
    Split (utf8 "to|bob") bar = [utf8 "to", utf8 "bob"] ∧
    DoMessage twoUsers 0 (utf8 "to|bob") = .error .indexOutOfRange :=
  ⟨by decide, by decide, rfl⟩

/-- C5, refuted as stated: a second connection from the address `alice` is
registered without any error and replaces the session registered before. -/
theorem registration_counterexample :
    mapGet (HandlerConnect NewServer (utf8 "alice")).OnlineMap (utf8 "alice") = some 0 ∧
    mapGet (HandlerConnect (HandlerConnect NewServer (utf8 "alice")) (utf8 "alice")).OnlineMap
      (utf8 "alice") = some 1 := by
  decide

/-- C5, amended. `Online` inserts the session under its identity without any
check: afterwards `OnlineMap` resolves that identity to the session (whatever
was registered under it before), resolves every other key as before, the
notice `[系统]{identity}:已上线` is published on `Message` and no session
changes. -/
theorem registration_overwrites (s : Server) (u : Nat) :
    mapGet (Online s u).OnlineMap (s.users u).Name = some u ∧
    (∀ k, k ≠ (s.users u).Name → mapGet (Online s u).OnlineMap k = mapGet s.OnlineMap k) ∧
    (Online s u).Message = s.Message ++ [utf8 "[系统]" ++ (s.users u).Name ++ utf8 ":已上线"] ∧
    (Online s u).users = s.users := by
  have e1 : utf8 "[" ++ utf8 "系统" ++ utf8 "]" = utf8 "[系统]" := by decide
  have e2 : utf8 ":" ++ utf8 "已上线" = utf8 ":已上线" := by decide
  refine ⟨?_, ?_, ?_, rfl⟩
  · simp [Online, BroadCast, mapGet_mapSet_same]
  · intro k hk
    simp [Online, BroadCast, mapGet_mapSet_ne _ _ _ _ hk]
  · simp only [Online, BroadCast, e1, List.append_assoc, e2]

/-- C6, the failing inputs: on `to|bob|a|b` from `alice` the session of `bob`
is written the body `a`, the third field of `strings.Split(msg, "|")`, and not
`a|b`, the text after the second `|`; on `to|bob||secret` the body is empty,
`alice` is written the notice `[系统]无消息内容，请重发` and `bob` is still
written a private message without content. -/
theorem body_truncated_at_delimiter :
    (∃ s1, DoMessage twoUsers 0 (utf8 "to|bob|a|b") = .ok s1 ∧
      (s1.users 1).conn.getLast? = some (utf8 "[私聊]alice对您说：a") ∧
      utf8 "[私聊]alice对您说：a" ≠ utf8 "[私聊]alice对您说：a|b") ∧
    (∃ s1, DoMessage twoUsers 0 (utf8 "to|bob||secret") = .ok s1 ∧
      (s1.users 0).conn.getLast? = some (utf8 "[系统]无消息内容，请重发\n") ∧
      (s1.users 1).conn.getLast? = some (utf8 "[私聊]alice对您说：")) :=
  ⟨⟨_, rfl, by decide, by decide⟩, ⟨_, rfl, by decide, by decide⟩⟩

/-- C8 (presence listing). `DoMessage` on the line `who` returns and writes
to the requester's connection one message per entry of `OnlineMap`, each
`[系统]{identity}:在线ing` followed by a newline for the identity of the
session of that entry (as multisets: the order of a map iteration is
unspecified); no other session changes, nothing is published on `Message` and
`OnlineMap` is unchanged. -/
theorem presence_listing (s : Server) (u : Nat) :
    ∃ s1 msgs, DoMessage s u (utf8 "who") = .ok s1 ∧
      s1.users u = { s.users u with conn := (s.users u).conn ++ msgs } ∧
      (msgs : Multiset GoString) =
        Multiset.map (fun e => utf8 "[系统]" ++ (s.users e.2).Name ++ utf8 ":在线ing\n")
          (s.OnlineMap : Multiset (GoString × Nat)) ∧
      (∀ q, q ≠ u → s1.users q = s.users q) ∧
      s1.Message = s.Message ∧
      s1.OnlineMap = s.OnlineMap := by
  refine ⟨_, s.OnlineMap.map (fun e => utf8 "[系统]" ++ (s.users e.2).Name ++ utf8 ":在线ing\n"),
    DoMessage_who s u, ?_, ?_, ?_, rfl, rfl⟩
  · simp
  · rfl
  · intro q hq
    simp [hq]

/-- C9 (registry slot invariant). In every state reached from `NewServer` by
a sequence of steps (connections with `Online`, also from an address that is
already a key, inbound lines for `DoMessage`, also renames, `Offline`, idle
timeouts, fan-out and mailbox forwarding), the keys of `OnlineMap` are
distinct, every entry is keyed by the current `Name` of the session stored in
it, and so no session is stored under two keys. -/
theorem registry_slot_invariant (tr : List Action) (s : Server)
    (h : run NewServer tr = .ok s) :
    (s.OnlineMap.map Prod.fst).Nodup ∧
    (∀ k p, (k, p) ∈ s.OnlineMap → (s.users p).Name = k) ∧
    (∀ k1 k2 p, (k1, p) ∈ s.OnlineMap → (k2, p) ∈ s.OnlineMap → k1 = k2) := by
  have hinv := SlotInv_run tr NewServer s SlotInv_NewServer h
  refine ⟨hinv.1, fun k p hkp => (hinv.2 (k, p) hkp).1, ?_⟩
  intro k1 k2 p h1 h2
  exact (hinv.2 (k1, p) h1).1.symm.trans (hinv.2 (k2, p) h2).1

/-- C9 at a concrete run: `collidingRun` ends in a state whose `OnlineMap`
holds session 0 under `alice`, and that state satisfies the slot invariant. -/
theorem registry_slot_invariant_witness :
    ∃ s, run NewServer collidingRun = .ok s ∧
      s.OnlineMap = [(utf8 "alice", 0)] ∧
      (s.OnlineMap.map Prod.fst).Nodup ∧
      (∀ k p, (k, p) ∈ s.OnlineMap → (s.users p).Name = k) ∧
      (∀ k1 k2 p, (k1, p) ∈ s.OnlineMap → (k2, p) ∈ s.OnlineMap → k1 = k2) :=
  ⟨_, rfl, by decide, registry_slot_invariant collidingRun _ rfl⟩

/-- C10, the failing run: after the connection from `a`, the fan-out of its
online notice and its idle timeout, `OnlineMap` still holds the session and
its mailbox is closed; the fan-out of the next message (the online notice of
`b`) sends on the closed channel. -/
theorem timeout_leaves_registry_entry :
    (∃ s, run NewServer [.connect (utf8 "a"), .fanOutStep, .timeout 0] = .ok s ∧
      mapGet s.OnlineMap (utf8 "a") = some 0 ∧ (s.users 0).closedC = true) ∧
    run NewServer
      [.connect (utf8 "a"), .fanOutStep, .timeout 0, .connect (utf8 "b"), .fanOutStep] =
      .error .sendOnClosedChannel :=
  ⟨⟨_, rfl, by decide, by decide⟩, rfl⟩

end IMGo
